import Mathlib

/-
Verification development for the Development.i harvesting pipeline
(scripts/dev_i_pipeline.py).

The Python module is shallowly embedded: pure helpers become Lean
functions on `String`/`List Char`; the filesystem, the download ledger
CSV and the browser session become explicit state threaded through the
step functions; Python exceptions become `Except`/`Option` results.
External capabilities (Playwright navigation, pdfplumber extraction,
pandas CSV parsing) are modelled as oracle fields of an `Env` record,
exactly at the call boundaries the script uses.
-/

set_option maxRecDepth 100000

namespace DevI

/-- Python `str.strip()` whitespace set (ASCII portion): the characters
stripped by a bare `strip()` call. -/
def pySpace (c : Char) : Bool :=
  c = ' ' || c = '\t' || c = '\n' || c = '\r' || c = '\x0b' || c = '\x0c'

/-- Strip characters satisfying `p` from both ends of a character list,
the semantics of Python `str.strip(chars)`. -/
def stripWhile (p : Char → Bool) (l : List Char) : List Char :=
  ((l.dropWhile p).reverse.dropWhile p).reverse

/-- The characters forbidden inside filenames by `clean_for_fs`:
the regex class `[\\/*?:"<>|]` (dev_i_pipeline.py line 100). -/
def isForbidden (c : Char) : Bool :=
  c = '\\' || c = '/' || c = '*' || c = '?' || c = ':' || c = '"' ||
  c = '<' || c = '>' || c = '|'

/-- Characters stripped by `.strip(" .")` in `clean_for_fs`. -/
def spaceDot (c : Char) : Bool :=
  c = ' ' || c = '.'

/-- The intermediate value `re.sub(r"[\\/*?:\"<>|]", "_", raw.strip())[:max_len]`
of `clean_for_fs`: strip outer whitespace, replace each forbidden character
with an underscore, cut to `maxLen` characters. -/
def sanitizedCut (raw : String) (maxLen : Nat) : List Char :=
  ((stripWhile pySpace raw.data).map (fun c => if isForbidden c then '_' else c)).take maxLen

/-- `clean_for_fs` (dev_i_pipeline.py lines 95-101): sanitise text for use
inside filenames; empty input, or input whose sanitised cut strips to
nothing over spaces and dots, falls back to `"unnamed"`. -/
def cleanForFs (raw : String) (maxLen : Nat := 120) : String :=
  if raw = "" then "unnamed"
  else
    let stripped := stripWhile spaceDot (sanitizedCut raw maxLen)
    if stripped.isEmpty then "unnamed" else String.mk stripped

/-- Match of the regex `(A00\d{6,})` anchored at the head of a character
list: literal `A00` followed by the greedy maximal run of at least six
digits. -/
def a00At : List Char → Option (List Char)
  | 'A' :: '0' :: '0' :: rest =>
    let ds := rest.takeWhile Char.isDigit
    if 6 ≤ ds.length then some ('A' :: '0' :: '0' :: ds) else none
  | _ => none

/-- Leftmost search for the record-id regex `(A00\d{6,})`, the scan
performed by `re.search` in `get_applications` and `enrich_and_merge`. -/
def findA00Chars : List Char → Option (List Char)
  | [] => none
  | c :: rest =>
    match a00At (c :: rest) with
    | some r => some r
    | none => findA00Chars rest

/-- `re.search(r"(A00\d{6,})", s)` returning the captured group. -/
def findA00 (s : String) : Option String :=
  (findA00Chars s.data).map String.mk

/-- Substring containment on character lists, the semantics of
Python `needle in hay`. -/
def containsSub (needle : List Char) : List Char → Bool
  | [] => needle.isEmpty
  | c :: rest => needle.isPrefixOf (c :: rest) || containsSub needle rest

/-- Python `" ".join(l)`. -/
def joinSpace (l : List String) : String :=
  String.intercalate " " l

/-- Python word character for `\b` boundaries: `[A-Za-z0-9_]` (ASCII). -/
def isWordChar (c : Char) : Bool :=
  c.isAlphanum || c = '_'

/-- Case-insensitive comparison of a subject character against a
lowercase pattern character, the effect of `re.IGNORECASE`. -/
def lowEq (c d : Char) : Bool :=
  c.toLower = d

/-- Tail of the DA-Form regex after the literal `DA`: `\s*Form\b`,
case-insensitively. -/
def daFormTail (l : List Char) : Bool :=
  match l.dropWhile pySpace with
  | f :: o :: r :: m :: rest =>
    lowEq f 'f' && lowEq o 'o' && lowEq r 'r' && lowEq m 'm' &&
    (match rest with
     | [] => true
     | c :: _ => !isWordChar c)
  | _ => false

/-- Match of `DA\s*Form\b` anchored at the head of the list (the leading
`\b` is checked by the caller from the preceding character). -/
def daFormAtPos (l : List Char) : Bool :=
  match l with
  | d :: a :: rest => lowEq d 'd' && lowEq a 'a' && daFormTail rest
  | _ => false

/-- Word-boundary test for the position after character `prev`
(`none` at the start of the subject). -/
def boundaryOk (prev : Option Char) : Bool :=
  match prev with
  | none => true
  | some p => !isWordChar p

/-- Scan of `re.search(r"\bDA\s*Form\b", text, re.IGNORECASE)` over all
start positions. -/
def daFormSearch : Option Char → List Char → Bool
  | _, [] => false
  | prev, c :: rest =>
    (boundaryOk prev && daFormAtPos (c :: rest)) || daFormSearch (some c) rest

/-- The row filter of `download_da_forms` (line 258):
`re.search(r"\bDA\s*Form\b", text, re.IGNORECASE)` as a Bool. -/
def daFormMatch (s : String) : Bool :=
  daFormSearch none s.data

/-- Consume a literal string prefix, failing otherwise. -/
def dropLiteral (lit : String) (l : List Char) : Option (List Char) :=
  if lit.data.isPrefixOf l then some (l.drop lit.data.length) else none

/-- Capture of the regex group `([^']+)` followed by its closing quote:
the greedy non-empty run of non-quote characters. -/
def captureQuoted (l : List Char) : Option (List Char × List Char) :=
  let pre := l.takeWhile (fun c => c != '\'')
  match l.dropWhile (fun c => c != '\'') with
  | '\'' :: rest => if pre.isEmpty then none else some (pre, rest)
  | _ => none

/-- Expect one literal character. -/
def expectChar (c : Char) : List Char → Option (List Char)
  | d :: rest => if d = c then some rest else none
  | [] => none

/-- Match of the regex
`fileDownload\('([^']+)',\s*'([^']+)',\s*'([^']+)'\)` anchored at the
head of the list, returning the three captured groups. -/
def parseOnclickAt (l : List Char) : Option (String × String × String) := do
  let l1 ← dropLiteral "fileDownload('" l
  let (g1, l2) ← captureQuoted l1
  let l3 ← expectChar ',' l2
  let l4 := l3.dropWhile pySpace
  let l5 ← expectChar '\'' l4
  let (g2, l6) ← captureQuoted l5
  let l7 ← expectChar ',' l6
  let l8 := l7.dropWhile pySpace
  let l9 ← expectChar '\'' l8
  let (g3, l10) ← captureQuoted l9
  let _ ← expectChar ')' l10
  pure (String.mk g1, String.mk g2, String.mk g3)

/-- Leftmost search for the `fileDownload(...)` pattern. -/
def parseOnclickSearch : List Char → Option (String × String × String)
  | [] => none
  | c :: rest =>
    match parseOnclickAt (c :: rest) with
    | some r => some r
    | none => parseOnclickSearch rest

/-- `parse_onclick_arguments` (dev_i_pipeline.py lines 230-234). -/
def parseOnclickArguments (s : String) : Option (String × String × String) :=
  parseOnclickSearch s.data

/-- Remove the final dotted extension of a path, the stem computation of
`pathlib.Path.with_suffix`: characters after the last `.` of the final
component are dropped together with the dot; a component without a dot is
kept whole. -/
def dropAfterLastDot (l : List Char) : List Char :=
  let rev := l.reverse
  let pre := rev.takeWhile (fun c => c != '.' && c != '/')
  match rev.drop pre.length with
  | '.' :: rest => rest.reverse
  | _ => l

/-- `final_path.with_suffix(".partial")` (lines 281 and 290): the
temporary artifact path used by the temp-then-rename download discipline. -/
def tmpOf (p : String) : String :=
  String.mk (dropAfterLastDot p.data) ++ ".partial"

/-- `OUT_DIR` from dev_i_csv_last30.py line 27: `Path("output")`. -/
def OUT_DIR : String := "output"

/-- One row of the ledger CSV `output/download_log.csv`. The
`downloaded_at` wall-clock column is not modelled: no code path of the
script reads it back. -/
structure LogEntry where
  app_no : String
  file_name : String
  file_path : String
deriving DecidableEq, Repr

/-- The ledger store restricted to the shapes the pipeline itself can
produce: the file is absent, rejected outright by `pd.read_csv`, or a
well-schema'd table of entries (every `append_log` write has the full
column set). A corrupt file that pandas still parses into a frame with
the wrong columns is outside this type; that mode is modelled exactly by
`RawLedger` below, and the agreement theorem `inLogFrame_agrees` shows
this typed view coincides with the raw one on every store representable
here. -/
inductive LedgerStore
  | absent
  | corrupt
  | table (entries : List LogEntry)
deriving DecidableEq, Repr

/-- `LOG_FILE.exists()`. -/
def ledgerExists : LedgerStore → Bool
  | .absent => false
  | _ => true

/-- The `pd.read_csv(LOG_FILE, dtype=str)` capability call: raises on a
corrupt store, otherwise yields the table. -/
def readLedgerCsv : LedgerStore → Except String (List LogEntry)
  | .absent => .error "file not found"
  | .corrupt => .error "parse error"
  | .table l => .ok l

/-- `load_log` (lines 111-117) over well-schema'd stores: if the file
exists, try to read it, swallowing any read exception; otherwise fall
back to an empty table. (`loadLogFrame` below is the same function over
raw frames, where a parseable wrong-schema file comes back as-is.) -/
def loadLog (s : LedgerStore) : List LogEntry :=
  if ledgerExists s then
    match readLedgerCsv s with
    | .ok l => l
    | .error _ => []
  else []

/-- `in_log` (lines 136-143) over well-schema'd stores: membership of an
(app_no, file_name) pair, false for an absent store and false when
reading raises. On this restricted state space the function is total;
`inLogFrame` below models the full behaviour, including the uncaught
KeyError a parseable wrong-schema store triggers at line 143. -/
def inLog (s : LedgerStore) (appNo fileName : String) : Bool :=
  if ledgerExists s then
    match readLedgerCsv s with
    | .ok l => l.any (fun e => e.app_no == appNo && e.file_name == fileName)
    | .error _ => false
  else false

/-- `append_log` (lines 120-133): load the whole table fail-open, append
one entry, rewrite the store wholesale. -/
def appendLog (s : LedgerStore) (appNo fileName filePath : String) : LedgerStore :=
  .table (loadLog s ++ [⟨appNo, fileName, filePath⟩])

/-- A raw DataFrame exactly as `pd.read_csv(LOG_FILE, dtype=str)` yields
it: column headers and string-or-NaN cells, whatever the file contained
— including wrong-schema frames parsed out of corrupt files. -/
structure PdFrame where
  headers : List String
  rows : List (List (Option String))
deriving DecidableEq, Repr

/-- The ledger file on disk as the reading capability presents it:
absent, unreadable (`pd.read_csv` raises), or parseable into some frame
of arbitrary schema. -/
inductive RawLedger
  | absent
  | unreadable
  | frame (f : PdFrame)
deriving DecidableEq, Repr

/-- `LOG_FILE.exists()` on a raw store. -/
def rawLedgerExists : RawLedger → Bool
  | .absent => false
  | _ => true

/-- The `pd.read_csv(LOG_FILE, dtype=str)` call on a raw store. -/
def readRawLedger : RawLedger → Except String PdFrame
  | .absent => .error "file not found"
  | .unreadable => .error "parse error"
  | .frame f => .ok f

/-- The `pd.DataFrame(columns=["app_no", "file_name", "file_path",
"downloaded_at"])` fallback of `load_log` line 117. -/
def emptyLogFrame : PdFrame :=
  ⟨["app_no", "file_name", "file_path", "downloaded_at"], []⟩

/-- `load_log` (lines 111-117) over raw stores: the try block wraps ONLY
the `pd.read_csv` call, so a parseable frame is returned as-is whatever
its columns; only a missing or unreadable file falls back to the empty
default frame. -/
def loadLogFrame (s : RawLedger) : PdFrame :=
  if rawLedgerExists s then
    match readRawLedger s with
    | .ok f => f
    | .error _ => emptyLogFrame
  else emptyLogFrame

/-- Position of a column label in a header list: `df["col"]` succeeds on
the first occurrence and raises KeyError when the label is absent. -/
def colIdx (col : String) : List String → Option Nat
  | [] => none
  | h :: rest => if h == col then some 0 else (colIdx col rest).map (fun i => i + 1)

/-- `in_log` (lines 136-143) over raw stores. The try block wraps only
`pd.read_csv`; the subsequent `df["app_no"]` and `df["file_name"]`
accesses at line 143 sit OUTSIDE it, so on a parseable frame lacking
either column the KeyError is raised, uncaught (`Except.error`), and
escapes `in_log`. A NaN cell compares unequal to any string, as in
pandas. -/
def inLogFrame (s : RawLedger) (appNo fileName : String) : Except String Bool :=
  if rawLedgerExists s then
    match readRawLedger s with
    | .error _ => .ok false
    | .ok f =>
      match colIdx "app_no" f.headers with
      | none => .error "KeyError: app_no"
      | some i =>
        match colIdx "file_name" f.headers with
        | none => .error "KeyError: file_name"
        | some j =>
          .ok (f.rows.any (fun row =>
            row.getD i none == some appNo && row.getD j none == some fileName))
  else .ok false

/-- The frame a well-schema'd table renders to on disk (the
`downloaded_at` cell is not modelled and reads back as NaN). -/
def frameOfEntries (l : List LogEntry) : PdFrame :=
  ⟨["app_no", "file_name", "file_path", "downloaded_at"],
   l.map (fun e => [some e.app_no, some e.file_name, some e.file_path, none])⟩

/-- Embedding of the well-schema'd store view into raw stores. -/
def rawOfStore : LedgerStore → RawLedger
  | .absent => .absent
  | .corrupt => .unreadable
  | .table l => .frame (frameOfEntries l)

/-- A record descriptor produced by `get_applications`
(`{"app_no": ..., "address": ...}`). -/
structure AppRec where
  app_no : String
  address : String
deriving DecidableEq, Repr

/-- A tabular export as `pd.read_csv(..., dtype=str)` presents it:
column headers and rows of optional (NaN-able) string cells. -/
structure Csv where
  headers : List String
  rows : List (List (Option String))

/-- The per-row body of the `get_applications` loop (lines 187-195):
join the non-NaN cells, search for the record-id pattern, and assemble
the address from every column whose lowercased header contains
`"address"`. -/
def rowRecord (headers : List String) (cells : List (Option String)) : Option AppRec :=
  match findA00 (joinSpace (cells.filterMap id)) with
  | none => none
  | some a =>
    let addrVals := (headers.zip cells).filterMap
      (fun pc => if containsSub "address".data pc.1.toLower.data then pc.2 else none)
    some ⟨a, String.mk (stripWhile pySpace (joinSpace addrVals).data)⟩

/-- One step of the dict comprehension
`{rec["app_no"]: rec for rec in records}`: insertion for a new key,
value replacement in place for an existing key. -/
def upsert (acc : List AppRec) (r : AppRec) : List AppRec :=
  if acc.any (fun x => x.app_no == r.app_no) then
    acc.map (fun x => if x.app_no == r.app_no then r else x)
  else acc ++ [r]

/-- The dict comprehension of line 196 over the whole record list. -/
def dedupLast (l : List AppRec) : List AppRec :=
  l.foldl upsert []

/-- `get_applications` (lines 182-198). -/
def getApplications (csv : Csv) : List AppRec :=
  dedupLast (csv.rows.filterMap (rowRecord csv.headers))

/-- The record ids of a descriptor list. -/
def keysOf (l : List AppRec) : List String :=
  l.map (fun r => r.app_no)

/-- The text content a downloaded attachment presents to `pdfplumber`:
either opening/extraction raises, or the file has a list of pages with
their `extract_text()` results (`""` standing for an empty extraction). -/
inductive PdfContent
  | corrupt
  | pages (ps : List String)
deriving DecidableEq, Repr

/-- An attachment file found by `OUT_DIR.rglob("*.pdf")`. -/
structure PdfFile where
  path : String
  content : PdfContent
deriving DecidableEq, Repr

/-- The page-concatenation loop of `extract_form_data` followed by the
`text[:3000]` bound. -/
def extractedText (ps : List String) : String :=
  String.mk ((ps.foldl (fun acc p => if p != "" then acc ++ p ++ "\n" else acc) "").data.take 3000)

/-- `extract_form_data` (lines 310-320): `none` models the empty dict
`{}` returned when pdfplumber raises; `some t` models
`{"RawText": t}` with the bounded concatenated text, which is returned
even when `t` is empty. -/
def extractFormData (f : PdfFile) : Option String :=
  match f.content with
  | .corrupt => none
  | .pages ps => some (extractedText ps)

/-- An attachment record of the enrichment phase: one element of the
`enriched` list (`RawText`, `Application_No`, `Source_File`). -/
structure AttRec where
  rawText : String
  application_no : String
  source_file : String
deriving DecidableEq, Repr

/-- The scanning loop of `enrich_and_merge` (lines 331-341): keep a file
only if its path carries a record id and `extract_form_data` returned a
truthy (non-empty) dict. -/
def enrichRecords (forms : List PdfFile) : List AttRec :=
  forms.filterMap (fun f =>
    match findA00 f.path with
    | none => none
    | some a =>
      match extractFormData f with
      | none => none
      | some t => some ⟨t, a, f.path⟩)

/-- A row of the original export during enrichment. -/
abbrev ERow := List (Option String)

/-- `_extract_app_no` (lines 350-353): the per-row join key, `""` when
the record-id pattern does not occur in the row. -/
def rowKey (cells : ERow) : String :=
  match findA00 (joinSpace (cells.filterMap id)) with
  | some a => a
  | none => ""

/-- One row of the merged output: the original cells, the computed
`Application_No` column, and the matched attachment record when any. -/
structure MergedRow where
  cells : ERow
  application_no : String
  att : Option AttRec
deriving DecidableEq, Repr

/-- `pd.merge(merged, forms_df, on="Application_No", how="left")`
(line 356): every left row is paired with each matching attachment
record, or kept once with empty enrichment fields when none matches. -/
def mergeRows (rows : List ERow) (forms : List AttRec) : List MergedRow :=
  match rows with
  | [] => []
  | r :: rest =>
    let key := rowKey r
    let ms := forms.filter (fun f => f.application_no == key)
    (if ms.isEmpty then [⟨r, key, none⟩] else ms.map (fun f => ⟨r, key, some f⟩))
      ++ mergeRows rest forms

/-- `enrich_and_merge` (lines 323-361): `none` models the early
`return None` paths in which no output file is written; `some out`
models writing the merged table `out` to a fresh enriched CSV. The
original export is never written to in either case. -/
def enrichAndMerge (rows : List ERow) (forms : List PdfFile) : Option (List MergedRow) :=
  if forms.isEmpty then none
  else
    let enriched := enrichRecords forms
    if enriched.isEmpty then none
    else some (mergeRows rows enriched)

/-- Pipeline state visible to the harvester: the set of materialised
file paths under the output tree, the ledger store, and a counter of
download attempts (`page.expect_download` invocations) made so far. -/
structure St where
  files : List String
  ledger : LedgerStore
  attempts : Nat
deriving DecidableEq, Repr

/-- Creation of a file at a path (a write to a fresh name is an
append; an existing path is overwritten in place). -/
def addFile (fs : List String) (p : String) : List String :=
  if fs.contains p then fs else fs ++ [p]

/-- `unlink` / the removal half of `rename`. -/
def removeFile (fs : List String) (p : String) : List String :=
  fs.filter (fun q => q != p)

/-- Outcome of one `expect_download` + `save_as` attempt: success, a
failure that raised before the partial file was written, or a failure
that left a partial file behind for the cleanup branch to delete. -/
inductive Outcome
  | ok
  | failClean
  | failDirty
deriving DecidableEq, Repr

/-- The retry loop of `download_da_forms` (lines 273-299) for one
download target. `fuel` counts the remaining attempts out of
`retry_limit`, `i` the absolute attempt index for the oracle `orc`.
On success: the artifact is saved to the `.partial` path, renamed to
the final path, and a ledger entry appended, then the loop breaks.
On failure: any partial file is unlinked and the loop proceeds.
Fuel running out is the `for ... else` exhaustion branch. -/
def attemptLoop (orc : Nat → Outcome) (tmp finalP appNo safeName : String) :
    Nat → Nat → St → St × Bool
  | 0, _, st => (st, false)
  | fuel + 1, i, st =>
    let st1 : St := { st with attempts := st.attempts + 1 }
    match orc i with
    | .ok =>
      let fs1 := addFile st1.files tmp
      let fs2 := addFile (removeFile fs1 tmp) finalP
      ({ st1 with
          files := fs2
          ledger := appendLog st1.ledger appNo safeName finalP }, true)
    | .failClean =>
      attemptLoop orc tmp finalP appNo safeName fuel (i + 1)
        { st1 with files := removeFile st1.files tmp }
    | .failDirty =>
      attemptLoop orc tmp finalP appNo safeName fuel (i + 1)
        { st1 with files := removeFile (addFile st1.files tmp) tmp }

/-- One document row of the listing as the harvester sees it:
`text` is the `inner_text` result (`none` when the call raises),
`onclick` the attribute of the first `a[onclick*='fileDownload']` link
(`none` when the row has no such link). -/
structure Row where
  text : Option String
  onclick : Option String
deriving DecidableEq, Repr

/-- A successful download result (the `DownloadResult` dataclass). -/
structure DownloadResult where
  app_no : String
  file_name : String
  file_path : String
deriving DecidableEq, Repr

/-- `build_da_folder` (lines 104-108) as the deterministic destination
path string (directory creation has no bearing on the harvest logic). -/
def buildDaFolder (appNo address : String) : String :=
  let base := if address ≠ "" then appNo ++ " - " ++ cleanForFs address 90 else appNo
  OUT_DIR ++ "/" ++ base ++ "/DA Form"

/-- Python `str.lower()` (ASCII case mapping) on a string, written over
the character list so it evaluates by kernel reduction. -/
def pyLower (s : String) : String :=
  String.mk (s.data.map Char.toLower)

/-- The deterministic final path
`dest / f"{app_no}_{safe_name}.{file_type.lower()}"` (line 269). -/
def finalPathFor (appNo address safeName ftype : String) : String :=
  buildDaFolder appNo address ++ "/" ++ appNo ++ "_" ++ safeName ++ "." ++ pyLower ftype

/-- The queueing decision for one row (lines 252-267): a download target
is produced only when `inner_text` succeeded, the text matches the
DA-Form pattern, a `fileDownload` link exists and its onclick attribute
parses. -/
def rowTarget (row : Row) : Option (String × String × String) :=
  match row.text with
  | none => none
  | some t =>
    if daFormMatch t then row.onclick.bind parseOnclickArguments else none

/-- Processing of one document row (lines 252-299): filter, skip check
against disk and ledger, then the retry loop. -/
def processRow (appNo address : String) (retry : Nat) (orc : Nat → Outcome)
    (st : St) (row : Row) : St × List DownloadResult :=
  match rowTarget row with
  | none => (st, [])
  | some (_, fname, ftype) =>
    let safeName := cleanForFs fname 120
    let finalP := finalPathFor appNo address safeName ftype
    if st.files.contains finalP || inLog st.ledger appNo safeName then (st, [])
    else
      match attemptLoop orc (tmpOf finalP) finalP appNo safeName retry 0 st with
      | (st1, true) => (st1, [⟨appNo, safeName, finalP⟩])
      | (st1, false) => (st1, [])

/-- The row loop of `download_da_forms`, rows indexed so the oracle can
distinguish them. -/
def downloadRows (appNo address : String) (retry : Nat) (orc : Nat → Nat → Outcome) :
    List Row → Nat → St → St × List DownloadResult
  | [], _, st => (st, [])
  | r :: rest, i, st =>
    let p1 := processRow appNo address retry (orc i) st r
    let p2 := downloadRows appNo address retry orc rest (i + 1) p1.1
    (p2.1, p1.2 ++ p2.2)

/-- `download_da_forms` (lines 237-302) after the document library has
been opened: scan every row, download the fresh DA-Form targets. -/
def downloadDaForms (appNo address : String) (rows : List Row) (retry : Nat)
    (orc : Nat → Nat → Outcome) (st : St) : St × List DownloadResult :=
  downloadRows appNo address retry orc rows 0 st

/-- A row is materialised in a state when it queues no target, or its
target's deterministic final path is already on disk or its
(record id, normalised name) pair is already in the ledger. -/
def rowMaterialized (appNo address : String) (st : St) (row : Row) : Bool :=
  match rowTarget row with
  | none => true
  | some (_, fname, ftype) =>
    let safe := cleanForFs fname 120
    st.files.contains (finalPathFor appNo address safe ftype) || inLog st.ledger appNo safe

/-- The CLI arguments of `parse_args` that reach `run_pipeline`. -/
structure Args where
  days : Nat
  headless : Bool
  skip_csv : Bool
  skip_forms : Bool
  skip_enrich : Bool
  csv_path : Option String
  max_apps : Option Nat
  retry_limit : Int
deriving Repr

/-- The external capabilities `run_pipeline` consumes: the newest CSV in
the output directory, the Export Fetch result, pandas parsing of a CSV
path, per-record document-library navigation, the listing rows, the
per-record per-row per-attempt download oracle, and the
`OUT_DIR.rglob("*.pdf")` scan at enrichment time. -/
structure Env where
  latestCsv : Option String
  fetchCsv : Except String String
  csvContent : String → Csv
  openLib : String → Except String Unit
  docRows : String → List Row
  oracle : String → Nat → Nat → Outcome
  pdfGlob : List PdfFile

/-- The per-record loop of `run_pipeline` (lines 451-457):
`download_da_forms` first calls `open_document_library`, whose
`RuntimeError`/timeout propagates uncaught; a successful open runs the
row loop and moves on to the next record. -/
def harvestApps (env : Env) (retry : Nat) : List AppRec → St → Except String St
  | [], st => .ok st
  | app :: rest, st =>
    match env.openLib app.app_no with
    | .error e => .error e
    | .ok _ =>
      harvestApps env retry rest
        (downloadDaForms app.app_no app.address (env.docRows app.app_no) retry
          (env.oracle app.app_no) st).1

/-- The value of `run_pipeline`: its return code, the final harvest
state, and the enrichment output (`none` when enrichment was skipped or
was a no-op). -/
structure RunOutcome where
  code : Int
  st : St
  enriched : Option (List MergedRow)

/-- `run_pipeline` (lines 419-464). An `Except.error` is an uncaught
Python exception escaping `run_pipeline`. -/
def runPipeline (args : Args) (env : Env) (st : St) : Except String RunOutcome :=
  if args.skip_csv && args.csv_path.isNone && env.latestCsv.isNone then
    .ok ⟨2, st, none⟩
  else
    let csvPath0 : Option String :=
      if args.skip_csv && args.csv_path.isNone then env.latestCsv else args.csv_path
    let fetched : Except String (Option String) :=
      if !args.skip_csv then env.fetchCsv.map some else .ok csvPath0
    match fetched with
    | .error e => .error e
    | .ok csvPath =>
      let harvested : Except String St :=
        match csvPath with
        | some p =>
          if !args.skip_forms then
            let apps := getApplications (env.csvContent p)
            let apps :=
              match args.max_apps with
              | some n => apps.take n
              | none => apps
            harvestApps env (max 1 args.retry_limit).toNat apps st
          else .ok st
        | none => .ok st
      match harvested with
      | .error e => .error e
      | .ok st1 =>
        let enr : Option (List MergedRow) :=
          match csvPath with
          | some p =>
            if !args.skip_enrich then enrichAndMerge (env.csvContent p).rows env.pdfGlob
            else none
          | none => none
        .ok ⟨0, st1, enr⟩

/-- `main` (lines 467-473): any exception escaping `run_pipeline` is
caught, reported, and converted to exit code 2. -/
def mainExit (args : Args) (env : Env) (st : St) : Int :=
  match runPipeline args env st with
  | .ok r => r.code
  | .error _ => 2

/-! ## Helper lemmas -/

theorem mem_stripWhile {c : Char} {p : Char → Bool} {l : List Char}
    (h : c ∈ stripWhile p l) : c ∈ l := by
  unfold stripWhile at h
  rw [List.mem_reverse] at h
  have h1 := (List.dropWhile_sublist p).subset h
  rw [List.mem_reverse] at h1
  exact (List.dropWhile_sublist p).subset h1

theorem length_stripWhile_le (p : Char → Bool) (l : List Char) :
    (stripWhile p l).length ≤ l.length := by
  unfold stripWhile
  rw [List.length_reverse]
  calc ((l.dropWhile p).reverse.dropWhile p).length
      ≤ (l.dropWhile p).reverse.length := (List.dropWhile_sublist p).length_le
    _ = (l.dropWhile p).length := List.length_reverse _
    _ ≤ l.length := (List.dropWhile_sublist p).length_le

theorem stripWhile_eq_nil_of_all {p : Char → Bool} {l : List Char}
    (h : ∀ c ∈ l, p c = true) : stripWhile p l = [] := by
  unfold stripWhile
  rw [List.dropWhile_eq_nil_iff.mpr h]
  rfl

/-! ## File-set and retry-loop lemmas -/

theorem contains_iff_mem (fs : List String) (p : String) :
    fs.contains p = true ↔ p ∈ fs :=
  List.elem_iff

theorem removeFile_removeFile (fs : List String) (p : String) :
    removeFile (removeFile fs p) p = removeFile fs p := by
  unfold removeFile
  rw [List.filter_filter]
  simp [Bool.and_self]

theorem removeFile_addFile (fs : List String) (p : String) :
    removeFile (addFile fs p) p = removeFile fs p := by
  unfold addFile
  by_cases h : fs.contains p = true
  · rw [if_pos h]
  · rw [if_neg h]
    unfold removeFile
    rw [List.filter_append]
    simp [bne_self_eq_false]

theorem removeFile_contains_self (fs : List String) (p : String) :
    (removeFile fs p).contains p = false := by
  by_contra hcon
  have hmem := (contains_iff_mem _ _).mp (Bool.of_not_eq_false hcon)
  have := (List.mem_filter.mp hmem).2
  rw [bne_self_eq_false] at this
  cases this

theorem contains_removeFile_mono (fs : List String) (p q : String)
    (h : fs.contains q = false) : (removeFile fs p).contains q = false := by
  by_contra hcon
  have hmem := (contains_iff_mem _ _).mp (Bool.of_not_eq_false hcon)
  have hq := (List.mem_filter.mp hmem).1
  rw [(contains_iff_mem _ _).mpr hq] at h
  cases h

theorem addFile_contains_self (fs : List String) (p : String) :
    (addFile fs p).contains p = true := by
  unfold addFile
  by_cases h : fs.contains p = true
  · rw [if_pos h]
    exact h
  · rw [if_neg h]
    exact (contains_iff_mem _ _).mpr (List.mem_append_right _ (List.mem_singleton.mpr rfl))

theorem contains_addFile_of_ne (fs : List String) (p q : String)
    (hne : q ≠ p) (h : fs.contains q = false) : (addFile fs p).contains q = false := by
  unfold addFile
  by_cases hc : fs.contains p = true
  · rw [if_pos hc]
    exact h
  · rw [if_neg hc]
    by_contra hcon
    have hmem := (contains_iff_mem _ _).mp (Bool.of_not_eq_false hcon)
    rcases List.mem_append.mp hmem with hq | hq
    · rw [(contains_iff_mem _ _).mpr hq] at h
      cases h
    · exact hne (List.mem_singleton.mp hq)

theorem st_pair_eq {f1 f2 : List String} {l1 l2 : LedgerStore} {a1 a2 : Nat} {b1 b2 : Bool}
    (hf : f1 = f2) (hl : l1 = l2) (ha : a1 = a2) (hb : b1 = b2) :
    ((⟨f1, l1, a1⟩ : St), b1) = ((⟨f2, l2, a2⟩ : St), b2) := by
  subst hf
  subst hl
  subst ha
  subst hb
  rfl

theorem attemptLoop_exhaust (orc1 : Nat → Outcome) (tmp finalP appNo safe : String) :
    ∀ (fuel start : Nat) (st : St), (∀ j, j < fuel → orc1 (start + j) ≠ Outcome.ok) →
      attemptLoop orc1 tmp finalP appNo safe fuel start st =
        ({ files := if fuel = 0 then st.files else removeFile st.files tmp,
           ledger := st.ledger, attempts := st.attempts + fuel }, false) := by
  intro fuel
  induction fuel with
  | zero =>
    intro start st h
    simp [attemptLoop]
  | succ n IH =>
    intro start st h
    have h0 : ¬ orc1 start = Outcome.ok := by
      have := h 0 (Nat.succ_pos n)
      rwa [Nat.add_zero] at this
    have hshift : ∀ j, j < n → orc1 (start + 1 + j) ≠ Outcome.ok := by
      intro j hj
      have hsh := h (j + 1) (by omega)
      rwa [show start + (j + 1) = start + 1 + j by omega] at hsh
    have hfiles : ∀ gs : List String,
        (if n = 0 then removeFile gs tmp else removeFile (removeFile gs tmp) tmp)
          = removeFile gs tmp := by
      intro gs
      cases n with
      | zero => rfl
      | succ m =>
        rw [if_neg (Nat.succ_ne_zero m)]
        exact removeFile_removeFile gs tmp
    unfold attemptLoop
    cases hoc : orc1 start with
    | ok => exact absurd hoc h0
    | failClean =>
      dsimp only
      rw [IH (start + 1) _ hshift]
      refine st_pair_eq ?_ rfl (by dsimp only; omega) rfl
      rw [if_neg (Nat.succ_ne_zero n)]
      exact hfiles st.files
    | failDirty =>
      dsimp only
      rw [IH (start + 1) _ hshift]
      refine st_pair_eq ?_ rfl (by dsimp only; omega) rfl
      rw [if_neg (Nat.succ_ne_zero n)]
      rw [removeFile_addFile]
      exact hfiles st.files

theorem attemptLoop_success (orc1 : Nat → Outcome) (tmp finalP appNo safe : String) :
    ∀ (k fuel start : Nat) (st : St),
      (∀ j, j < k → orc1 (start + j) ≠ Outcome.ok) → orc1 (start + k) = Outcome.ok →
      k < fuel →
      attemptLoop orc1 tmp finalP appNo safe fuel start st =
        ({ files := addFile (removeFile st.files tmp) finalP,
           ledger := appendLog st.ledger appNo safe finalP,
           attempts := st.attempts + (k + 1) }, true) := by
  intro k
  induction k with
  | zero =>
    intro fuel start st hfail hok hk
    cases fuel with
    | zero => exact absurd hk (by omega)
    | succ n =>
      rw [Nat.add_zero] at hok
      unfold attemptLoop
      rw [hok]
      dsimp only
      exact st_pair_eq (by rw [removeFile_addFile]) rfl rfl rfl
  | succ m IH =>
    intro fuel start st hfail hok hk
    cases fuel with
    | zero => exact absurd hk (by omega)
    | succ n =>
      have h0 : ¬ orc1 start = Outcome.ok := by
        have := hfail 0 (Nat.succ_pos m)
        rwa [Nat.add_zero] at this
      have hshift : ∀ j, j < m → orc1 (start + 1 + j) ≠ Outcome.ok := by
        intro j hj
        have hsh := hfail (j + 1) (by omega)
        rwa [show start + (j + 1) = start + 1 + j by omega] at hsh
      have hok1 : orc1 (start + 1 + m) = Outcome.ok := by
        rwa [show start + 1 + m = start + (m + 1) by omega]
      unfold attemptLoop
      cases hoc : orc1 start with
      | ok => exact absurd hoc h0
      | failClean =>
        dsimp only
        rw [IH n (start + 1) _ hshift hok1 (by omega)]
        exact st_pair_eq (by rw [removeFile_removeFile]) rfl (by dsimp only; omega) rfl
      | failDirty =>
        dsimp only
        rw [IH n (start + 1) _ hshift hok1 (by omega)]
        exact st_pair_eq (by rw [removeFile_addFile, removeFile_removeFile]) rfl (by dsimp only; omega) rfl

theorem processRow_skip (appNo address : String) (retry : Nat) (orc1 : Nat → Outcome)
    (st : St) (row : Row) (h : rowMaterialized appNo address st row = true) :
    processRow appNo address retry orc1 st row = (st, []) := by
  unfold processRow
  unfold rowMaterialized at h
  cases ht : rowTarget row with
  | none => rfl
  | some tgt =>
    obtain ⟨fid, fname, ftype⟩ := tgt
    rw [ht] at h
    dsimp only at h
    dsimp only
    rw [if_pos h]

theorem processRow_queued (appNo address : String) (retry : Nat) (orc1 : Nat → Outcome)
    (st : St) (row : Row) (fid fname ftype : String)
    (ht : rowTarget row = some (fid, fname, ftype))
    (hfresh : (st.files.contains (finalPathFor appNo address (cleanForFs fname 120) ftype)
        || inLog st.ledger appNo (cleanForFs fname 120)) = false) :
    processRow appNo address retry orc1 st row =
      (match attemptLoop orc1 (tmpOf (finalPathFor appNo address (cleanForFs fname 120) ftype))
          (finalPathFor appNo address (cleanForFs fname 120) ftype) appNo
          (cleanForFs fname 120) retry 0 st with
       | (st1, true) => (st1, [⟨appNo, cleanForFs fname 120,
           finalPathFor appNo address (cleanForFs fname 120) ftype⟩])
       | (st1, false) => (st1, [])) := by
  unfold processRow
  rw [ht]
  dsimp only
  rw [hfresh]
  simp only [Bool.false_eq_true, if_false]

/-! ## C3: harvester idempotence over materialised downloads -/

/-- C3: when every queued row of the listing is already materialised —
its deterministic final path is on disk OR its (record id, normalised
name) pair is in the ledger — the harvester skips every row: it returns
the state unchanged (zero download attempts made, zero ledger entries
appended) and reports no downloads. A second run over the state left by
a fully materialised first run is exactly such a run. -/
theorem harvester_idempotent (appNo address : String) (rows : List Row) (retry : Nat)
    (orc : Nat → Nat → Outcome) (st : St)
    (h : rows.all (rowMaterialized appNo address st) = true) :
    downloadDaForms appNo address rows retry orc st = (st, []) := by
  unfold downloadDaForms
  suffices haux : ∀ (l : List Row), l.all (rowMaterialized appNo address st) = true →
      ∀ i, downloadRows appNo address retry orc l i st = (st, []) by
    exact haux rows h 0
  intro l
  induction l with
  | nil =>
    intro _ i
    rfl
  | cons r rest IH =>
    intro hall i
    rw [List.all_cons] at hall
    obtain ⟨h1, h2⟩ := Bool.and_eq_true_iff.mp hall
    unfold downloadRows
    dsimp only
    rw [processRow_skip appNo address retry (orc i) st r h1]
    dsimp only
    rw [IH h2 (i + 1)]
    rfl

theorem harvester_idempotent_witness :
    downloadDaForms "A00123456" ""
      [⟨some "DA Form", some "fileDownload('9','plan.pdf','PDF')"⟩] 3
      (fun _ _ => Outcome.failClean)
      ⟨["output/A00123456/DA Form/A00123456_plan.pdf.pdf"], LedgerStore.absent, 0⟩ =
    (⟨["output/A00123456/DA Form/A00123456_plan.pdf.pdf"], LedgerStore.absent, 0⟩, []) :=
  harvester_idempotent "A00123456" ""
    [⟨some "DA Form", some "fileDownload('9','plan.pdf','PDF')"⟩] 3
    (fun _ _ => Outcome.failClean)
    ⟨["output/A00123456/DA Form/A00123456_plan.pdf.pdf"], LedgerStore.absent, 0⟩
    (by decide)

/-! ## C4: retry exhaustion -/

/-- C4: a fresh download target whose attempts all fail leaves no
finalised file at the target path, no `.partial` artifact, and an
unchanged ledger; exactly `retry_limit` attempts are spent, and the row
loop continues with the remaining rows from that state (so later targets
of the same record are still processed — and the harvester still returns
normally, so later records are too). -/
theorem retry_exhaustion (appNo address : String) (row : Row) (rest : List Row)
    (retry i : Nat) (orc : Nat → Nat → Outcome) (st : St) (fid fname ftype : String)
    (ht : rowTarget row = some (fid, fname, ftype))
    (hfile : st.files.contains (finalPathFor appNo address (cleanForFs fname 120) ftype) = false)
    (hlog : inLog st.ledger appNo (cleanForFs fname 120) = false)
    (hfail : ∀ j, j < retry → orc i j ≠ Outcome.ok)
    (hret : 1 ≤ retry) :
    downloadRows appNo address retry orc (row :: rest) i st =
      downloadRows appNo address retry orc rest (i + 1)
        ⟨removeFile st.files (tmpOf (finalPathFor appNo address (cleanForFs fname 120) ftype)),
         st.ledger, st.attempts + retry⟩ ∧
    (removeFile st.files
        (tmpOf (finalPathFor appNo address (cleanForFs fname 120) ftype))).contains
      (finalPathFor appNo address (cleanForFs fname 120) ftype) = false ∧
    (removeFile st.files
        (tmpOf (finalPathFor appNo address (cleanForFs fname 120) ftype))).contains
      (tmpOf (finalPathFor appNo address (cleanForFs fname 120) ftype)) = false := by
  have hfail0 : ∀ j, j < retry → orc i (0 + j) ≠ Outcome.ok := by
    intro j hj
    rw [Nat.zero_add]
    exact hfail j hj
  have hfresh : (st.files.contains (finalPathFor appNo address (cleanForFs fname 120) ftype)
      || inLog st.ledger appNo (cleanForFs fname 120)) = false := by
    rw [hfile, hlog]
    rfl
  have hA := attemptLoop_exhaust (orc i)
    (tmpOf (finalPathFor appNo address (cleanForFs fname 120) ftype))
    (finalPathFor appNo address (cleanForFs fname 120) ftype) appNo
    (cleanForFs fname 120) retry 0 st hfail0
  refine ⟨?_, contains_removeFile_mono _ _ _ hfile, removeFile_contains_self _ _⟩
  conv_lhs => unfold downloadRows
  dsimp only
  rw [processRow_queued appNo address retry (orc i) st row fid fname ftype ht hfresh]
  rw [hA]
  rw [if_neg (by omega : ¬ retry = 0)]
  dsimp only
  rw [List.nil_append]

theorem retry_exhaustion_witness :
    downloadRows "A00123456" "" 3 (fun _ _ => Outcome.failClean)
      [⟨some "DA Form", some "fileDownload('9','plan.pdf','PDF')"⟩] 0
      ⟨[], LedgerStore.absent, 0⟩ =
      (⟨[], LedgerStore.absent, 3⟩, []) := by
  have h := retry_exhaustion "A00123456" ""
    ⟨some "DA Form", some "fileDownload('9','plan.pdf','PDF')"⟩ [] 3 0
    (fun _ _ => Outcome.failClean) ⟨[], LedgerStore.absent, 0⟩ "9" "plan.pdf" "PDF"
    (by decide) (by decide) (by decide) (by decide) (by decide)
  rw [h.1]
  decide

/-! ## C5: retry success -/

/-- C5: a fresh download target whose attempts fail `k` times
(`k < retry_limit`) and then succeed yields exactly one finalised file
at the deterministic target path, written through the `.partial`
temporary then renamed (so no `.partial` artifact remains), exactly one
ledger append for the (record id, normalised name) pair, and the attempt
loop stops immediately after the success: exactly `k + 1` attempts. -/
theorem retry_success (appNo address : String) (row : Row) (retry k : Nat)
    (orc1 : Nat → Outcome) (st : St) (fid fname ftype : String)
    (ht : rowTarget row = some (fid, fname, ftype))
    (hfile : st.files.contains (finalPathFor appNo address (cleanForFs fname 120) ftype) = false)
    (hlog : inLog st.ledger appNo (cleanForFs fname 120) = false)
    (hfail : ∀ j, j < k → orc1 j ≠ Outcome.ok)
    (hok : orc1 k = Outcome.ok)
    (hk : k < retry)
    (htmp : tmpOf (finalPathFor appNo address (cleanForFs fname 120) ftype)
      ≠ finalPathFor appNo address (cleanForFs fname 120) ftype) :
    processRow appNo address retry orc1 st row =
      (⟨addFile (removeFile st.files
            (tmpOf (finalPathFor appNo address (cleanForFs fname 120) ftype)))
          (finalPathFor appNo address (cleanForFs fname 120) ftype),
        appendLog st.ledger appNo (cleanForFs fname 120)
          (finalPathFor appNo address (cleanForFs fname 120) ftype),
        st.attempts + (k + 1)⟩,
       [⟨appNo, cleanForFs fname 120,
         finalPathFor appNo address (cleanForFs fname 120) ftype⟩]) ∧
    (addFile (removeFile st.files
          (tmpOf (finalPathFor appNo address (cleanForFs fname 120) ftype)))
        (finalPathFor appNo address (cleanForFs fname 120) ftype)).contains
      (finalPathFor appNo address (cleanForFs fname 120) ftype) = true ∧
    (addFile (removeFile st.files
          (tmpOf (finalPathFor appNo address (cleanForFs fname 120) ftype)))
        (finalPathFor appNo address (cleanForFs fname 120) ftype)).contains
      (tmpOf (finalPathFor appNo address (cleanForFs fname 120) ftype)) = false ∧
    loadLog (appendLog st.ledger appNo (cleanForFs fname 120)
        (finalPathFor appNo address (cleanForFs fname 120) ftype)) =
      loadLog st.ledger ++ [⟨appNo, cleanForFs fname 120,
        finalPathFor appNo address (cleanForFs fname 120) ftype⟩] := by
  have hfail0 : ∀ j, j < k → orc1 (0 + j) ≠ Outcome.ok := by
    intro j hj
    rw [Nat.zero_add]
    exact hfail j hj
  have hok0 : orc1 (0 + k) = Outcome.ok := by
    rw [Nat.zero_add]
    exact hok
  have hfresh : (st.files.contains (finalPathFor appNo address (cleanForFs fname 120) ftype)
      || inLog st.ledger appNo (cleanForFs fname 120)) = false := by
    rw [hfile, hlog]
    rfl
  have hA := attemptLoop_success orc1
    (tmpOf (finalPathFor appNo address (cleanForFs fname 120) ftype))
    (finalPathFor appNo address (cleanForFs fname 120) ftype) appNo
    (cleanForFs fname 120) k retry 0 st hfail0 hok0 hk
  refine ⟨?_, addFile_contains_self _ _,
    contains_addFile_of_ne _ _ _ htmp (removeFile_contains_self _ _), rfl⟩
  rw [processRow_queued appNo address retry orc1 st row fid fname ftype ht hfresh]
  rw [hA]

theorem retry_success_witness :
    processRow "A00123456" "" 3
      (fun j => if j = 0 then Outcome.failDirty else Outcome.ok)
      ⟨[], LedgerStore.absent, 0⟩
      ⟨some "DA Form", some "fileDownload('9','plan.pdf','PDF')"⟩ =
      (⟨["output/A00123456/DA Form/A00123456_plan.pdf.pdf"],
        LedgerStore.table [⟨"A00123456", "plan.pdf",
          "output/A00123456/DA Form/A00123456_plan.pdf.pdf"⟩], 2⟩,
       [⟨"A00123456", "plan.pdf",
         "output/A00123456/DA Form/A00123456_plan.pdf.pdf"⟩]) := by
  have h := retry_success "A00123456" ""
    ⟨some "DA Form", some "fileDownload('9','plan.pdf','PDF')"⟩ 3 1
    (fun j => if j = 0 then Outcome.failDirty else Outcome.ok)
    ⟨[], LedgerStore.absent, 0⟩ "9" "plan.pdf" "PDF"
    (by decide) (by decide) (by decide) (by decide) (by decide) (by decide) (by decide)
  rw [h.1]
  decide

/-! ## C8: enrichment join cardinality -/

theorem mergeRows_unfold (r : ERow) (rest : List ERow) (forms : List AttRec) :
    mergeRows (r :: rest) forms =
      (if (forms.filter (fun f => f.application_no == rowKey r)).isEmpty
       then [⟨r, rowKey r, none⟩]
       else (forms.filter (fun f => f.application_no == rowKey r)).map
         (fun f => ⟨r, rowKey r, some f⟩))
      ++ mergeRows rest forms := rfl

theorem filter_keeps_map {r : ERow} {a : String} (ms : List AttRec) :
    ((ms.map (fun f => (⟨r, a, some f⟩ : MergedRow))).filter
        (fun m => m.application_no == a)) =
      ms.map (fun f => (⟨r, a, some f⟩ : MergedRow)) := by
  rw [List.filter_eq_self]
  intro m hm
  rcases List.mem_map.mp hm with ⟨f, hf, hfm⟩
  rw [← hfm]
  exact beq_self_eq_true a

theorem filter_drops_map {r : ERow} {k a : String} (ms : List AttRec)
    (hk : ¬(k == a) = true) :
    ((ms.map (fun f => (⟨r, k, some f⟩ : MergedRow))).filter
        (fun m => m.application_no == a)) = [] := by
  rw [List.filter_eq_nil_iff]
  intro m hm
  rcases List.mem_map.mp hm with ⟨f, hf, hfm⟩
  rw [← hfm]
  exact hk

/-- C8: the enrichment merge is a left outer join on record id: for any
id, with `N` matching attachment records and `M` matching export rows
the output has `N*M` rows for that id when `N ≥ 1` and `M` rows when
`N = 0`; and in the `N = 0` case those `M` rows are exactly the original
rows, carried unchanged with the enrichment side empty. -/
theorem mergeRows_left_join (forms : List AttRec) (a : String) : ∀ rows : List ERow,
    ((mergeRows rows forms).filter (fun m => m.application_no == a)).length =
      (if (forms.filter (fun f => f.application_no == a)).length = 0
       then (rows.filter (fun r => rowKey r == a)).length
       else (forms.filter (fun f => f.application_no == a)).length *
            (rows.filter (fun r => rowKey r == a)).length) ∧
    ((forms.filter (fun f => f.application_no == a)) = [] →
      (mergeRows rows forms).filter (fun m => m.application_no == a) =
        (rows.filter (fun r => rowKey r == a)).map
          (fun r => (⟨r, rowKey r, none⟩ : MergedRow)))
  | [] => by
    constructor
    · by_cases hN : (forms.filter (fun f => f.application_no == a)).length = 0
      · rw [if_pos hN]
        rfl
      · rw [if_neg hN]
        rfl
    · intro _
      rfl
  | r :: rest => by
    have IH := mergeRows_left_join forms a rest
    rw [mergeRows_unfold, List.filter_append]
    by_cases hk : (rowKey r == a) = true
    · have hkey : rowKey r = a := beq_iff_eq.mp hk
      rw [hkey]
      by_cases hN : (forms.filter (fun f => f.application_no == a)) = []
      · have hNe : (forms.filter (fun f => f.application_no == a)).isEmpty = true :=
          List.isEmpty_iff.mpr hN
        rw [if_pos hNe]
        have hone : ([(⟨r, a, none⟩ : MergedRow)].filter
            (fun m => m.application_no == a)) = [⟨r, a, none⟩] := by
          rw [List.filter_cons_of_pos (p := fun m : MergedRow => m.application_no == a)
            (beq_self_eq_true a), List.filter_nil]
        rw [hone]
        have hN0 : (forms.filter (fun f => f.application_no == a)).length = 0 := by
          rw [hN]; rfl
        constructor
        · simp only [List.length_append, IH.1, if_pos hN0,
            List.filter_cons_of_pos (p := fun q : ERow => rowKey q == a) hk,
            List.length_cons, List.length_nil]
          omega
        · intro hN2
          rw [List.filter_cons_of_pos (p := fun q : ERow => rowKey q == a) hk]
          rw [List.map_cons, hkey, IH.2 hN2]
          rfl
      · have hNe : ¬(forms.filter (fun f => f.application_no == a)).isEmpty = true := by
          intro hcon
          exact hN (List.isEmpty_iff.mp hcon)
        rw [if_neg hNe]
        rw [filter_keeps_map]
        have hN0 : ¬(forms.filter (fun f => f.application_no == a)).length = 0 := by
          intro hcon
          exact hN (List.length_eq_zero.mp hcon)
        constructor
        · simp only [List.length_append, List.length_map, IH.1, if_neg hN0,
            List.filter_cons_of_pos (p := fun q : ERow => rowKey q == a) hk,
            List.length_cons, Nat.mul_succ]
          omega
        · intro hN2
          exact absurd hN2 hN
    · have hdrop : ((if (forms.filter (fun f => f.application_no == rowKey r)).isEmpty
          then [(⟨r, rowKey r, none⟩ : MergedRow)]
          else (forms.filter (fun f => f.application_no == rowKey r)).map
            (fun f => ⟨r, rowKey r, some f⟩)).filter
          (fun m => m.application_no == a)) = [] := by
        by_cases hms : (forms.filter (fun f => f.application_no == rowKey r)).isEmpty = true
        · rw [if_pos hms]
          rw [List.filter_cons_of_neg (p := fun m : MergedRow => m.application_no == a) hk,
              List.filter_nil]
        · rw [if_neg hms]
          exact filter_drops_map _ hk
      rw [hdrop, List.nil_append]
      rw [List.filter_cons_of_neg (p := fun q : ERow => rowKey q == a) hk]
      exact IH

/-! ## C1: pipeline exit-code contract -/

theorem harvestApps_ok (env : Env) (retry : Nat)
    (hopen : ∀ a, env.openLib a = Except.ok ()) :
    ∀ (apps : List AppRec) (st : St), ∃ st1, harvestApps env retry apps st = Except.ok st1
  | [], st => ⟨st, rfl⟩
  | app :: rest, st => by
    unfold harvestApps
    rw [hopen app.app_no]
    exact harvestApps_ok env retry hopen rest _

theorem harvestApps_error (env : Env) (retry : Nat) :
    ∀ (apps : List AppRec) (st : St) (e : String),
      harvestApps env retry apps st = Except.error e →
      ∃ a e2, env.openLib a = Except.error e2
  | [], _, _, h => by cases h
  | app :: rest, st, e, h => by
    unfold harvestApps at h
    cases hoc : env.openLib app.app_no with
    | error e2 => exact ⟨app.app_no, e2, hoc⟩
    | ok u =>
      rw [hoc] at h
      dsimp only at h
      exact harvestApps_error env retry rest _ e h

/-- C1 counterexample: with Export Fetch succeeding and `--skip-csv` not
given, a single record whose document-library navigation fails makes
`download_da_forms` raise; nothing in `run_pipeline` catches it, `main`
converts it to exit code 2 — refuting the claim that the orchestrator
returns non-zero ONLY on Export Fetch failure or skip-csv-with-no-CSV
and that a record whose listing fails is skipped with the run
continuing. -/
theorem listing_failure_aborts :
    (Args.mk 30 true false false true none none 3).skip_csv = false ∧
    (Env.mk none (Except.ok "output/b.csv")
        (fun _ => ⟨["Application Number"], [[some "A00123456"]]⟩)
        (fun _ => Except.error "Document library did not load for A00123456.")
        (fun _ => []) (fun _ _ _ => Outcome.ok) []).fetchCsv =
      Except.ok "output/b.csv" ∧
    mainExit (Args.mk 30 true false false true none none 3)
      (Env.mk none (Except.ok "output/b.csv")
        (fun _ => ⟨["Application Number"], [[some "A00123456"]]⟩)
        (fun _ => Except.error "Document library did not load for A00123456.")
        (fun _ => []) (fun _ _ _ => Outcome.ok) [])
      ⟨[], LedgerStore.absent, 0⟩ = 2 := by
  refine ⟨rfl, rfl, ?_⟩
  rfl

/-- C1 amended: the orchestrator exits non-zero (with code 2) exactly on
a wider fatal set than claimed: a fatal Export Fetch failure, a
`--skip-csv` run with no export to reuse, or any record whose document
listing fails to open — that last failure propagates out of the
harvesting loop and aborts the run instead of being absorbed. All
per-row and per-download failures (every oracle outcome) are still
absorbed: if Export Fetch succeeds and every listing opens, the exit
code is 0 regardless of download failures. -/
theorem pipeline_exit_spec (args : Args) (env : Env) (st : St) (p : String) :
    (args.skip_csv = false → env.fetchCsv = Except.ok p →
      (∀ a, env.openLib a = Except.ok ()) → mainExit args env st = 0) ∧
    (mainExit args env st ≠ 0 →
      (args.skip_csv = false ∧ ∃ e, env.fetchCsv = Except.error e) ∨
      (args.skip_csv = true ∧ args.csv_path = none ∧ env.latestCsv = none) ∨
      (∃ a e, env.openLib a = Except.error e)) := by
  constructor
  · intro hskip hfetch hopen
    unfold mainExit runPipeline
    rw [hskip, hfetch]
    simp only [Bool.false_and, Bool.false_eq_true, if_false, Bool.not_false, if_true,
      Except.map]
    by_cases hforms : args.skip_forms = true
    · rw [hforms]
      rfl
    · rw [Bool.of_not_eq_true hforms]
      obtain ⟨st1, hH⟩ := harvestApps_ok env (max 1 args.retry_limit).toNat hopen
        (match args.max_apps with
         | some n => (getApplications (env.csvContent p)).take n
         | none => getApplications (env.csvContent p)) st
      rw [hH]
      rfl
  · intro hne
    by_cases htop : (args.skip_csv && args.csv_path.isNone && env.latestCsv.isNone) = true
    · refine Or.inr (Or.inl ?_)
      obtain ⟨h12, h3⟩ := Bool.and_eq_true_iff.mp htop
      obtain ⟨h1, h2⟩ := Bool.and_eq_true_iff.mp h12
      exact ⟨h1, Option.isNone_iff_eq_none.mp h2, Option.isNone_iff_eq_none.mp h3⟩
    · unfold mainExit runPipeline at hne
      rw [if_neg htop] at hne
      by_cases hskip : args.skip_csv = true
      · rw [hskip] at hne
        simp only [Bool.not_true, Bool.false_eq_true, if_false, Bool.true_and] at hne
        cases hcsvp : args.csv_path with
        | some path0 =>
          rw [hcsvp] at hne
          simp only [Option.isNone_some, Bool.false_eq_true, if_false] at hne
          by_cases hforms : args.skip_forms = true
          · rw [hforms] at hne
            simp only [Bool.not_true, Bool.false_eq_true, if_false] at hne
            exact absurd rfl hne
          · rw [Bool.of_not_eq_true hforms] at hne
            simp only [Bool.not_false, if_true] at hne
            cases hH : harvestApps env (max 1 args.retry_limit).toNat
                (match args.max_apps with
                 | some n => (getApplications (env.csvContent path0)).take n
                 | none => getApplications (env.csvContent path0)) st with
            | error e =>
              rw [hH] at hne
              exact Or.inr (Or.inr (harvestApps_error env _ _ _ _ hH))
            | ok st1 =>
              rw [hH] at hne
              exact absurd rfl hne
        | none =>
          rw [hcsvp] at hne
          simp only [Option.isNone_none, if_true] at hne
          cases hlat : env.latestCsv with
          | none =>
            exfalso
            apply htop
            rw [hskip, hcsvp, hlat]
            rfl
          | some l =>
            rw [hlat] at hne
            dsimp only at hne
            by_cases hforms : args.skip_forms = true
            · rw [hforms] at hne
              simp only [Bool.not_true, Bool.false_eq_true, if_false] at hne
              exact absurd rfl hne
            · rw [Bool.of_not_eq_true hforms] at hne
              simp only [Bool.not_false, if_true] at hne
              cases hH : harvestApps env (max 1 args.retry_limit).toNat
                  (match args.max_apps with
                   | some n => (getApplications (env.csvContent l)).take n
                   | none => getApplications (env.csvContent l)) st with
              | error e =>
                rw [hH] at hne
                exact Or.inr (Or.inr (harvestApps_error env _ _ _ _ hH))
              | ok st1 =>
                rw [hH] at hne
                exact absurd rfl hne
      · have hskipf : args.skip_csv = false := Bool.of_not_eq_true hskip
        rw [hskipf] at hne
        simp only [Bool.not_false, if_true, Bool.false_and, Bool.false_eq_true,
          if_false] at hne
        cases hf : env.fetchCsv with
        | error e =>
          exact Or.inl ⟨hskipf, e, rfl⟩
        | ok q =>
          rw [hf] at hne
          simp only [Except.map] at hne
          by_cases hforms : args.skip_forms = true
          · rw [hforms] at hne
            simp only [Bool.not_true, Bool.false_eq_true, if_false] at hne
            exact absurd rfl hne
          · rw [Bool.of_not_eq_true hforms] at hne
            simp only [Bool.not_false, if_true] at hne
            cases hH : harvestApps env (max 1 args.retry_limit).toNat
                (match args.max_apps with
                 | some n => (getApplications (env.csvContent q)).take n
                 | none => getApplications (env.csvContent q)) st with
            | error e =>
              rw [hH] at hne
              exact Or.inr (Or.inr (harvestApps_error env _ _ _ _ hH))
            | ok st1 =>
              rw [hH] at hne
              exact absurd rfl hne
/-! ## C7: ledger fail-open is narrower than claimed -/

theorem any_map_poly {α β : Type} (f : α → β) (p : β → Bool) :
    ∀ l : List α, (l.map f).any p = l.any (fun x => p (f x))
  | [] => rfl
  | x :: rest => by
    rw [List.map_cons, List.any_cons, List.any_cons, any_map_poly f p rest]

theorem inLogFrame_agrees (s : LedgerStore) (a f : String) :
    inLogFrame (rawOfStore s) a f = Except.ok (inLog s a f) := by
  cases s with
  | absent => rfl
  | corrupt => rfl
  | table l =>
    show Except.ok ((frameOfEntries l).rows.any _) = _
    unfold frameOfEntries
    dsimp only
    rw [any_map_poly]
    rfl

/-- C7 counterexample: a corrupt ledger file that pandas still parses —
here a one-column frame from a stray text file — is NOT treated as an
empty ledger: `load_log` returns the non-empty wrong-schema frame
as-is, and the membership check raises an uncaught KeyError at the
`df["app_no"]` access instead of returning false, refuting "yields an
empty table", "returns false for every pair" and "never raises an
error". -/
theorem ledger_keyerror_not_fail_open :
    inLogFrame (RawLedger.frame ⟨["hello"], [[some "world"]]⟩) "A00123456" "plan.pdf"
      = Except.error "KeyError: app_no" ∧
    loadLogFrame (RawLedger.frame ⟨["hello"], [[some "world"]]⟩)
      = ⟨["hello"], [[some "world"]]⟩ ∧
    (⟨["hello"], [[some "world"]]⟩ : PdFrame) ≠ emptyLogFrame := by
  exact ⟨rfl, rfl, by decide⟩

/-- C7 amended: fail-open holds exactly for ledger stores that are
absent or that `pd.read_csv` rejects — those load as the empty table
and the membership check answers false for every pair, without raising.
A corrupt store that pandas still parses is outside the fail-open path:
`load_log` hands back the parsed wrong-schema frame unchanged
(non-empty), and when the `app_no` column (or, with `app_no` present,
the `file_name` column) is missing, the membership check raises an
uncaught KeyError instead of returning false — the try blocks wrap only
the read, so the exception escapes `in_log` and, like any exception
below `main`, ends the run with exit code 2 rather than merely causing
redundant downloads. -/
theorem ledger_fail_open_scope (s : RawLedger) (a f : String) :
    ((s = RawLedger.absent ∨ s = RawLedger.unreadable) →
      loadLogFrame s = emptyLogFrame ∧ inLogFrame s a f = Except.ok false) ∧
    (∀ fr, s = RawLedger.frame fr → loadLogFrame s = fr) ∧
    (∀ fr, s = RawLedger.frame fr → colIdx "app_no" fr.headers = none →
      inLogFrame s a f = Except.error "KeyError: app_no") ∧
    (∀ fr i, s = RawLedger.frame fr → colIdx "app_no" fr.headers = some i →
      colIdx "file_name" fr.headers = none →
      inLogFrame s a f = Except.error "KeyError: file_name") := by
  refine ⟨?_, ?_, ?_, ?_⟩
  · intro h
    rcases h with h | h <;> subst h <;> exact ⟨rfl, rfl⟩
  · intro fr h
    subst h
    rfl
  · intro fr h hcol
    subst h
    unfold inLogFrame readRawLedger rawLedgerExists
    dsimp only
    rw [hcol]
    rfl
  · intro fr i h hcol1 hcol2
    subst h
    unfold inLogFrame readRawLedger rawLedgerExists
    dsimp only
    rw [hcol1, hcol2]
    rfl

theorem ledger_fail_open_scope_witness :
    (loadLogFrame RawLedger.unreadable = emptyLogFrame ∧
      inLogFrame RawLedger.unreadable "A00123456" "plan.pdf" = Except.ok false) ∧
    loadLogFrame (RawLedger.frame ⟨["nonsense"], [[some "x"], [none]]⟩)
      = ⟨["nonsense"], [[some "x"], [none]]⟩ ∧
    inLogFrame (RawLedger.frame ⟨["nonsense"], [[some "x"], [none]]⟩)
        "A00123456" "plan.pdf" = Except.error "KeyError: app_no" ∧
    inLogFrame (RawLedger.frame ⟨["app_no"], [[some "A00123456"]]⟩)
        "A00123456" "plan.pdf" = Except.error "KeyError: file_name" :=
  ⟨(ledger_fail_open_scope RawLedger.unreadable "A00123456" "plan.pdf").1 (Or.inr rfl),
   (ledger_fail_open_scope _ "A00123456" "plan.pdf").2.1 _ rfl,
   (ledger_fail_open_scope _ "A00123456" "plan.pdf").2.2.1 _ rfl rfl,
   (ledger_fail_open_scope _ "A00123456" "plan.pdf").2.2.2 _ 0 rfl rfl rfl⟩

/-! ## C2: which scanned attachments are dropped by the enrichment scan -/

/-- C2 counterexample: a scanned attachment whose every page yields
empty text produces `extract_form_data` result `{"RawText": ""}` — a
truthy, non-empty dict — so the file is KEPT as an attachment record,
contradicting the claim that every file yielding no extracted text is
dropped regardless of whether extraction raised or merely returned
empty text. -/
theorem extract_empty_text_kept :
    extractFormData ⟨"o/A00777777_s.pdf", PdfContent.pages ["", ""]⟩
      = some "" ∧
    enrichRecords [⟨"o/A00777777_s.pdf", PdfContent.pages ["", ""]⟩]
      = [⟨"", "A00777777", "o/A00777777_s.pdf"⟩] := by
  exact ⟨rfl, by decide⟩

/-- C2 amended: the enrichment scan drops exactly the files whose text
extraction raises (and those whose path carries no record id); a file
whose extraction succeeds is kept as an attachment record even when the
extracted text is empty. -/
theorem enrich_drop_semantics (f : PdfFile) :
    (f.content = PdfContent.corrupt → enrichRecords [f] = []) ∧
    (findA00 f.path = none → enrichRecords [f] = []) ∧
    (∀ a ps, findA00 f.path = some a → f.content = PdfContent.pages ps →
      enrichRecords [f] = [⟨extractedText ps, a, f.path⟩]) := by
  refine ⟨fun hc => ?_, fun hn => ?_, fun a ps ha hp => ?_⟩
  · simp only [enrichRecords, List.filterMap, extractFormData, hc]
    cases findA00 f.path <;> rfl
  · simp [enrichRecords, hn]
  · simp [enrichRecords, extractFormData, ha, hp]

theorem enrich_drop_semantics_witness :
    enrichRecords [⟨"o/junk.pdf", PdfContent.pages ["x"]⟩] = [] ∧
    enrichRecords [⟨"o/A00555555_f.pdf", PdfContent.pages ["hello"]⟩]
      = [⟨extractedText ["hello"], "A00555555", "o/A00555555_f.pdf"⟩] :=
  ⟨(enrich_drop_semantics ⟨"o/junk.pdf", PdfContent.pages ["x"]⟩).2.1 (by decide),
   (enrich_drop_semantics ⟨"o/A00555555_f.pdf", PdfContent.pages ["hello"]⟩).2.2
     "A00555555" ["hello"] (by decide) rfl⟩

/-! ## C9: enrichment no-op conditions -/

/-- C9 counterexample: with one attachment file present whose extraction
succeeds but yields no text, an attachment record exists, so the merger
does NOT no-op: it produces (writes) an enriched output. This refutes
the claim's reading that "none yields extractable text" suffices for the
no-op path. -/
theorem enrich_writes_despite_empty_text :
    extractFormData
        ⟨"o/A00123456_p.pdf", PdfContent.pages [""]⟩
      = some "" ∧
    enrichAndMerge [[some "A00123456"]]
        [⟨"o/A00123456_p.pdf", PdfContent.pages [""]⟩]
      ≠ none := by
  exact ⟨rfl, by decide⟩

/-- C9 amended: the merger is a no-op (returns `None`, writes no output
file, leaves the original export untouched) exactly when zero attachment
records exist, i.e. when no attachment files were found under the output
root, or when every found file is dropped by the scan because its path
lacks a record id or its extraction raised; a file with empty extracted
text still counts as an attachment record. -/
theorem enrich_noop_on_empty (rows : List ERow) (forms : List PdfFile)
    (h : forms = [] ∨ enrichRecords forms = []) :
    enrichAndMerge rows forms = none := by
  rcases h with h | h
  · simp [enrichAndMerge, h]
  · simp [enrichAndMerge, h]

theorem enrich_noop_on_empty_witness :
    enrichAndMerge [[some "A00123456"]] [] = none :=
  enrich_noop_on_empty [[some "A00123456"]] [] (Or.inl rfl)

/-! ## C10: the filename sanitiser -/

/-- C10 counterexample: with the positive cap 1 and input `"."`, the
sanitiser returns the fallback `"unnamed"`, whose length 7 exceeds the
cap — refuting the claim that the result length is always at most the
cap. -/
theorem cleanForFs_exceeds_cap :
    cleanForFs "." 1 = "unnamed" ∧ ¬((cleanForFs "." 1).length ≤ 1) := by
  exact ⟨by decide, by decide⟩

/-- C10 amended: for every input and positive cap the sanitiser returns
a non-empty string free of the forbidden filename characters; the result
is either the fixed fallback `"unnamed"` (returned whenever the input is
empty or the sanitised, cut text strips to nothing over spaces and dots,
and which can exceed a cap smaller than 7) or a string of length at most
the cap. -/
theorem cleanForFs_cases (raw : String) (maxLen : Nat) :
    cleanForFs raw maxLen =
      if raw = "" then "unnamed"
      else if (stripWhile spaceDot (sanitizedCut raw maxLen)).isEmpty then "unnamed"
      else String.mk (stripWhile spaceDot (sanitizedCut raw maxLen)) := rfl

theorem cleanForFs_spec (raw : String) (maxLen : Nat) (hpos : 0 < maxLen) :
    cleanForFs raw maxLen ≠ "" ∧
    (∀ c ∈ (cleanForFs raw maxLen).data, isForbidden c = false) ∧
    (cleanForFs raw maxLen = "unnamed" ∨ (cleanForFs raw maxLen).length ≤ maxLen) ∧
    (raw = "" → cleanForFs raw maxLen = "unnamed") ∧
    ((sanitizedCut raw maxLen).all spaceDot = true → cleanForFs raw maxLen = "unnamed") := by
  have hunnamed : ∀ c ∈ ("unnamed" : String).data, isForbidden c = false := by decide
  have hne : ("unnamed" : String) ≠ "" := by decide
  rw [cleanForFs_cases]
  by_cases hraw : raw = ""
  · rw [if_pos hraw]
    exact ⟨hne, hunnamed, Or.inl rfl, fun _ => rfl, fun _ => rfl⟩
  · rw [if_neg hraw]
    by_cases hstrip : (stripWhile spaceDot (sanitizedCut raw maxLen)).isEmpty = true
    · rw [if_pos hstrip]
      exact ⟨hne, hunnamed, Or.inl rfl, fun h => absurd h hraw, fun _ => rfl⟩
    · rw [if_neg hstrip]
      have hnil : stripWhile spaceDot (sanitizedCut raw maxLen) ≠ [] := by
        intro h
        rw [h] at hstrip
        exact hstrip rfl
      refine ⟨?_, ?_, ?_, fun h => absurd h hraw, ?_⟩
      · intro h
        exact hnil (congrArg String.data h)
      · intro c hc
        have hc1 : c ∈ sanitizedCut raw maxLen := mem_stripWhile hc
        unfold sanitizedCut at hc1
        have hc2 := List.take_subset _ _ hc1
        rcases List.mem_map.mp hc2 with ⟨d, _, hd⟩
        by_cases hf : isForbidden d = true
        · rw [if_pos hf] at hd
          rw [← hd]
          decide
        · rw [if_neg hf] at hd
          rw [← hd]
          exact Bool.of_not_eq_true hf
      · right
        show (stripWhile spaceDot (sanitizedCut raw maxLen)).length ≤ maxLen
        calc (stripWhile spaceDot (sanitizedCut raw maxLen)).length
            ≤ (sanitizedCut raw maxLen).length := length_stripWhile_le _ _
          _ ≤ maxLen := by
              unfold sanitizedCut
              exact List.length_take_le _ _
      · intro hall
        exact absurd (stripWhile_eq_nil_of_all (List.all_eq_true.mp hall)) hnil

/-! ## C6: record extractor deduplication -/

theorem map_replace_id {acc : List AppRec} (r : AppRec)
    (h : ∀ x ∈ acc, (x.app_no == r.app_no) = false) :
    acc.map (fun x => if x.app_no == r.app_no then r else x) = acc := by
  have hcongr := List.map_congr_left (l := acc)
    (f := fun x => if x.app_no == r.app_no then r else x) (g := id)
    (fun x hx => by simp only [h x hx, Bool.false_eq_true, if_false, id])
  rw [hcongr, List.map_id]

theorem upsert_keysOf_nodup {acc : List AppRec} (r : AppRec)
    (h : (keysOf acc).Nodup) : (keysOf (upsert acc r)).Nodup := by
  unfold upsert
  by_cases hc : acc.any (fun x => x.app_no == r.app_no) = true
  · rw [if_pos hc]
    have hkeys : keysOf (acc.map (fun x => if x.app_no == r.app_no then r else x))
        = keysOf acc := by
      unfold keysOf
      rw [List.map_map]
      refine List.map_congr_left (fun x _ => ?_)
      by_cases hx : (x.app_no == r.app_no) = true
      · simp only [Function.comp_apply, hx, if_true]
        exact (beq_iff_eq.mp hx).symm
      · simp only [Function.comp_apply, hx, Bool.false_eq_true, if_false]
    rw [hkeys]
    exact h
  · rw [if_neg hc]
    have hnone := List.any_eq_false.mp (Bool.of_not_eq_true hc)
    unfold keysOf
    rw [List.map_append, List.nodup_append]
    refine ⟨h, List.nodup_singleton _, ?_⟩
    intro k hk hk1
    simp only [List.map_cons, List.map_nil, List.mem_singleton] at hk1
    subst hk1
    rcases List.mem_map.mp hk with ⟨x, hx, hxk⟩
    exact hnone x hx (beq_iff_eq.mpr hxk)

theorem filter_map_replace (r : AppRec) (a : String) :
    ∀ (acc : List AppRec), (keysOf acc).Nodup →
      acc.any (fun x => x.app_no == r.app_no) = true →
      (acc.map (fun x => if x.app_no == r.app_no then r else x)).filter
          (fun x => x.app_no == a) =
        if r.app_no == a then [r] else acc.filter (fun x => x.app_no == a)
  | [], _, hany => by cases hany
  | x :: acc, hnodup, hany => by
    have hnodup1 : (keysOf (x :: acc)).Nodup := hnodup
    rw [keysOf, List.map_cons, List.nodup_cons] at hnodup1
    have hnm : x.app_no ∉ keysOf acc := hnodup1.1
    have hnd1 : (keysOf acc).Nodup := hnodup1.2
    by_cases hx : (x.app_no == r.app_no) = true
    · have hxr : x.app_no = r.app_no := beq_iff_eq.mp hx
      have hnone : ∀ y ∈ acc, (y.app_no == r.app_no) = false := by
        intro y hy
        by_contra hcon
        have hyr : y.app_no = r.app_no := beq_iff_eq.mp (Bool.of_not_eq_false hcon)
        exact hnm (hxr ▸ hyr ▸ List.mem_map_of_mem (fun z => z.app_no) hy)
      rw [List.map_cons, if_pos hx, map_replace_id r hnone]
      by_cases ha : (r.app_no == a) = true
      · rw [if_pos ha]
        have hra : r.app_no = a := beq_iff_eq.mp ha
        rw [List.filter_cons_of_pos (p := fun y : AppRec => y.app_no == a) ha]
        have hrest : acc.filter (fun y => y.app_no == a) = [] := by
          rw [List.filter_eq_nil_iff]
          intro y hy hcon
          have hyr : (y.app_no == r.app_no) = true := by
            rw [beq_iff_eq]
            rw [beq_iff_eq.mp hcon, hra]
          rw [hnone y hy] at hyr
          cases hyr
        rw [hrest]
      · rw [if_neg ha]
        have hxa : ¬(x.app_no == a) = true := by rw [hxr]; exact ha
        rw [List.filter_cons_of_neg (p := fun y : AppRec => y.app_no == a) ha]
        rw [List.filter_cons_of_neg (p := fun y : AppRec => y.app_no == a) hxa]
    · have hany1 : acc.any (fun y => y.app_no == r.app_no) = true := by
        rw [List.any_cons] at hany
        rcases Bool.or_eq_true_iff.mp hany with h | h
        · exact absurd h hx
        · exact h
      have IH := filter_map_replace r a acc hnd1 hany1
      rw [List.map_cons, if_neg hx]
      by_cases hxa : (x.app_no == a) = true
      · rw [List.filter_cons_of_pos (p := fun y : AppRec => y.app_no == a) hxa,
            List.filter_cons_of_pos (p := fun y : AppRec => y.app_no == a) hxa, IH]
        by_cases hra : (r.app_no == a) = true
        · exfalso
          exact hx (beq_iff_eq.mpr (by rw [beq_iff_eq.mp hxa, beq_iff_eq.mp hra]))
        · rw [if_neg hra, if_neg hra]
      · rw [List.filter_cons_of_neg (p := fun y : AppRec => y.app_no == a) hxa,
            List.filter_cons_of_neg (p := fun y : AppRec => y.app_no == a) hxa, IH]

theorem upsert_filter (r : AppRec) (a : String) (acc : List AppRec)
    (h : (keysOf acc).Nodup) :
    (upsert acc r).filter (fun x => x.app_no == a) =
      if r.app_no == a then [r] else acc.filter (fun x => x.app_no == a) := by
  unfold upsert
  by_cases hc : acc.any (fun x => x.app_no == r.app_no) = true
  · rw [if_pos hc]
    exact filter_map_replace r a acc h hc
  · rw [if_neg hc]
    have hnone := List.any_eq_false.mp (Bool.of_not_eq_true hc)
    rw [List.filter_append]
    by_cases ha : (r.app_no == a) = true
    · rw [if_pos ha]
      have hra : r.app_no = a := beq_iff_eq.mp ha
      have hempty : acc.filter (fun x => x.app_no == a) = [] := by
        rw [List.filter_eq_nil_iff]
        intro x hx hcon
        exact hnone x hx (by
          rw [beq_iff_eq]
          rw [beq_iff_eq.mp hcon, hra])
      rw [hempty]
      rw [List.filter_cons_of_pos (p := fun y : AppRec => y.app_no == a) ha]
      rfl
    · rw [if_neg ha]
      rw [List.filter_cons_of_neg (p := fun y : AppRec => y.app_no == a) ha]
      rw [List.filter_nil, List.append_nil]

theorem dedupLast_spec (a : String) (l : List AppRec) :
    (keysOf (dedupLast l)).Nodup ∧
    (dedupLast l).filter (fun x => x.app_no == a) =
      ((l.filter (fun x => x.app_no == a)).getLast?).toList := by
  induction l using List.reverseRecOn with
  | nil => exact ⟨List.nodup_nil, rfl⟩
  | append_singleton l r IH =>
    have hfold : dedupLast (l ++ [r]) = upsert (dedupLast l) r := by
      unfold dedupLast
      rw [List.foldl_append]
      rfl
    refine ⟨by rw [hfold]; exact upsert_keysOf_nodup r IH.1, ?_⟩
    rw [hfold, upsert_filter r a (dedupLast l) IH.1, List.filter_append]
    by_cases ha : (r.app_no == a) = true
    · rw [if_pos ha]
      rw [List.filter_cons_of_pos (p := fun y : AppRec => y.app_no == a) ha,
          List.filter_nil, List.getLast?_concat]
      rfl
    · rw [if_neg ha]
      rw [List.filter_cons_of_neg (p := fun y : AppRec => y.app_no == a) ha,
          List.filter_nil, List.append_nil]
      exact IH.2

/-- C6: for every export and record id, the extractor's output contains
the descriptors with that id of exactly the last matching row in file
order — one descriptor per distinct id, its address assembled from the
last occurrence (`getLast?.toList` is empty for an absent id and a
singleton otherwise). -/
theorem getApplications_dedup (csv : Csv) (a : String) :
    (getApplications csv).filter (fun x => x.app_no == a) =
      (((csv.rows.filterMap (rowRecord csv.headers)).filter
          (fun x => x.app_no == a)).getLast?).toList :=
  (dedupLast_spec a (csv.rows.filterMap (rowRecord csv.headers))).2

theorem cleanForFs_spec_witness :
    cleanForFs "a?b" 120 ≠ "" ∧
    (∀ c ∈ (cleanForFs "a?b" 120).data, isForbidden c = false) ∧
    (cleanForFs "a?b" 120 = "unnamed" ∨ (cleanForFs "a?b" 120).length ≤ 120) ∧
    ("a?b" = "" → cleanForFs "a?b" 120 = "unnamed") ∧
    ((sanitizedCut "a?b" 120).all spaceDot = true → cleanForFs "a?b" 120 = "unnamed") :=
  cleanForFs_spec "a?b" 120 (by decide)

theorem pipeline_exit_spec_witness :
    mainExit (Args.mk 30 true false false true none none 3)
      (Env.mk none (Except.ok "output/b.csv")
        (fun _ => ⟨["Application Number"], [[some "A00123456"]]⟩)
        (fun _ => Except.ok ()) (fun _ => []) (fun _ _ _ => Outcome.failClean) [])
      ⟨[], LedgerStore.absent, 0⟩ = 0 ∧
    (((Args.mk 30 true false false true none none 3).skip_csv = false ∧
        ∃ e, (Env.mk none (Except.error "CSV download did not succeed.")
            (fun _ => ⟨["Application Number"], [[some "A00123456"]]⟩)
            (fun _ => Except.ok ()) (fun _ => []) (fun _ _ _ => Outcome.failClean)
            []).fetchCsv = Except.error e) ∨
      ((Args.mk 30 true false false true none none 3).skip_csv = true ∧
        (Args.mk 30 true false false true none none 3).csv_path = none ∧
        (Env.mk none (Except.error "CSV download did not succeed.")
            (fun _ => ⟨["Application Number"], [[some "A00123456"]]⟩)
            (fun _ => Except.ok ()) (fun _ => []) (fun _ _ _ => Outcome.failClean)
            []).latestCsv = none) ∨
      (∃ a e, (Env.mk none (Except.error "CSV download did not succeed.")
            (fun _ => ⟨["Application Number"], [[some "A00123456"]]⟩)
            (fun _ => Except.ok ()) (fun _ => []) (fun _ _ _ => Outcome.failClean)
            []).openLib a = Except.error e)) :=
  ⟨(pipeline_exit_spec (Args.mk 30 true false false true none none 3)
      (Env.mk none (Except.ok "output/b.csv")
        (fun _ => ⟨["Application Number"], [[some "A00123456"]]⟩)
        (fun _ => Except.ok ()) (fun _ => []) (fun _ _ _ => Outcome.failClean) [])
      ⟨[], LedgerStore.absent, 0⟩ "output/b.csv").1 rfl rfl (fun _ => rfl),
   (pipeline_exit_spec (Args.mk 30 true false false true none none 3)
      (Env.mk none (Except.error "CSV download did not succeed.")
        (fun _ => ⟨["Application Number"], [[some "A00123456"]]⟩)
        (fun _ => Except.ok ()) (fun _ => []) (fun _ _ _ => Outcome.failClean) [])
      ⟨[], LedgerStore.absent, 0⟩ "output/b.csv").2 (by decide)⟩

theorem mergeRows_left_join_witness :
    ((mergeRows [[some "A00123456"]] ([] : List AttRec)).filter
        (fun m => m.application_no == "A00123456")).length = 1 ∧
    (mergeRows [[some "A00123456"]] ([] : List AttRec)).filter
        (fun m => m.application_no == "A00123456") =
      [⟨[some "A00123456"], "A00123456", none⟩] := by
  have h := mergeRows_left_join ([] : List AttRec) "A00123456" [[some "A00123456"]]
  constructor
  · rw [h.1]
    decide
  · rw [h.2 rfl]
    decide

end DevI